import Mathlib

/-!
Shallow embedding of the `udyr` scanner (`src/scanner.rs`) and parser
(`src/parser.rs`).

Modelling conventions:
* Rust `String` source text is a `List Char`.  Rust's `source.len()` is the
  UTF-8 byte count, while `source.chars().nth(i)` indexes by character; the
  embedding keeps both notions (`byteLen` vs. list indexing) because the
  scanner mixes them.
* A Rust panic (out-of-range `unwrap`, out-of-bounds `Vec` index) is `none`;
  every fallible operation returns an `Option` and `none` propagates.
* Rust's byte-index slices `&source[a..b]` are modelled as character slices.
  On any run in which the scanner returns normally every consumed character
  is a single UTF-8 byte (the cursor advances once per character but the
  loop bound is the byte count, so a multi-byte character makes the scanner
  panic before returning), and on such runs byte slices and character
  slices coincide.
-/

namespace Udyr

/-- Token kinds, from `TokenType` in `src/token.rs`. -/
inductive TokenType where
  | LeftParen | RightParen | LeftBrace | RightBrace | Comma | Dot | Minus | Plus
  | SEMICOLON | SLASH | STAR
  | BANG | BangEqual | EQUAL | EqualEqual | GREATER | GreaterEqual | LESS | LessEqual
  | IDENTIFIER | STRING | NUMBER
  | AND | CLASS | ELSE | FALSE | FUN | FOR | IF | NIL | OR | PRINT | RETURN | SUPER
  | THIS | TRUE | VAR | WHILE
  | EOF | None
deriving DecidableEq, Repr

/-- A scanned token, from `Token` in `src/token.rs`. -/
structure Token where
  token_type : TokenType
  lexeme : List Char
  literal : List Char
  line : Nat
deriving DecidableEq, Repr

/-- The constructor `Token::empty()` from `src/token.rs`. -/
def Token.empty : Token :=
  { token_type := TokenType.None, lexeme := [], literal := [], line := 0 }

/-- The predicate `is_digit` from `src/scanner.rs`. -/
def is_digit (c : Char) : Bool :=
  '0' ≤ c && c ≤ '9'

/-- The predicate `is_alpha` from `src/scanner.rs`. -/
def is_alpha (c : Char) : Bool :=
  ('a' ≤ c && c ≤ 'z') || ('A' ≤ c && c ≤ 'Z') || c = '_'

/-- The predicate `is_alpha_numeric` from `src/scanner.rs`. -/
def is_alpha_numeric (c : Char) : Bool :=
  is_digit c || is_alpha c

/-- The keyword table built in `Scanner::new` (`src/scanner.rs`). -/
def keyword_lookup (text : List Char) : Option TokenType :=
  if text = "and".toList then some TokenType.AND
  else if text = "class".toList then some TokenType.CLASS
  else if text = "else".toList then some TokenType.ELSE
  else if text = "false".toList then some TokenType.FALSE
  else if text = "for".toList then some TokenType.FOR
  else if text = "fun".toList then some TokenType.FUN
  else if text = "if".toList then some TokenType.IF
  else if text = "nil".toList then some TokenType.NIL
  else if text = "or".toList then some TokenType.OR
  else if text = "print".toList then some TokenType.PRINT
  else if text = "return".toList then some TokenType.RETURN
  else if text = "super".toList then some TokenType.SUPER
  else if text = "this".toList then some TokenType.THIS
  else if text = "true".toList then some TokenType.TRUE
  else if text = "var".toList then some TokenType.VAR
  else if text = "while".toList then some TokenType.WHILE
  else none

/-- The formatter `report` from `src/error.rs` (the `location` argument is always `""`). -/
def report (line : Nat) (location : String) (message : String) : String :=
  "[line " ++ toString line ++ "] Error" ++ location ++ ": " ++ message

/-- The formatter `error` from `src/error.rs`. -/
def error (line : Nat) (message : String) : String :=
  report line "" message

/-- UTF-8 byte count of one character (what Rust's `String::len` sums). -/
def utf8CharSize (c : Char) : Nat :=
  if c.toNat < 0x80 then 1
  else if c.toNat < 0x800 then 2
  else if c.toNat < 0x10000 then 3
  else 4

/-- Rust `source.len()`: the UTF-8 byte count of the text. -/
def byteLen (s : List Char) : Nat :=
  (s.map utf8CharSize).sum

/-- Character slice `s[a..b]` (see the byte/character note in the header). -/
def slice (s : List Char) (a b : Nat) : List Char :=
  (s.take b).drop a

/-- The `Scanner` struct fields from `src/scanner.rs` (the keyword table is
the fixed global `keyword_lookup`). -/
structure ScanState where
  source : List Char
  tokens : List Token
  errors : List String
  start : Nat
  current : Nat
  line : Nat
deriving Repr

/-- The constructor `Scanner::new` from `src/scanner.rs`. -/
def Scanner.new (source : List Char) : ScanState :=
  { source := source, tokens := [], errors := [], start := 0, current := 0, line := 1 }

/-- The check `Scanner::is_at_end`: `current >= source.len()` (byte
length). -/
def is_at_end (s : ScanState) : Bool :=
  byteLen s.source ≤ s.current

/-- The cursor step `Scanner::advance`: `chars().nth(current).unwrap()` then `current += 1`;
`none` is the panic of the `unwrap`. -/
def advance (s : ScanState) : Option (Char × ScanState) :=
  match s.source.get? s.current with
  | none => none
  | some c => some (c, { s with current := s.current + 1 })

/-- The lookahead `Scanner::match_next`: false at end of input, else compares
`chars().nth(current).unwrap()` with `expected` (the `unwrap` can panic). -/
def match_next (s : ScanState) (expected : Char) : Option Bool :=
  if is_at_end s then some false
  else
    match s.source.get? s.current with
    | none => none
    | some c => some (c = expected)

/-- The lookahead `Scanner::peek`: `'\0'` at end of input, else the `unwrap`ped current
character. -/
def peek (s : ScanState) : Option Char :=
  if is_at_end s then some '\x00'
  else s.source.get? s.current

/-- The lookahead `Scanner::peek_next`. -/
def peek_next (s : ScanState) : Option Char :=
  if byteLen s.source ≤ s.current + 1 then some '\x00'
  else s.source.get? (s.current + 1)

/-- The emitter `Scanner::add_token`: the lexeme is the slice `source[start..current]`. -/
def add_token (s : ScanState) (t : TokenType) (lit : List Char) : ScanState :=
  { s with tokens :=
      s.tokens ++ [{ token_type := t, lexeme := slice s.source s.start s.current,
                     literal := lit, line := s.line }] }

/-- The emitter `Scanner::add_empty_token`. -/
def add_empty_token (s : ScanState) (t : TokenType) : ScanState :=
  add_token s t []

/-- The `while` loop of `Scanner::string`: advance (bumping `line` at each
newline) until the closing quote or end of input.  `advance` is inlined as a
guarded index plus cursor bump so the recursion visibly decreases. -/
def stringLoop (s : ScanState) : Option ScanState :=
  match peek s with
  | none => none
  | some c =>
    if h : ¬ c = '"' ∧ is_at_end s = false then
      match s.source.get? s.current with
      | none => none
      | some _ =>
        stringLoop { s with line := if c = '\n' then s.line + 1 else s.line,
                            current := s.current + 1 }
    else some s
termination_by byteLen s.source - s.current
decreasing_by
  have hc : s.current < byteLen s.source := by
    have h2 := h.2
    simp [is_at_end] at h2
    omega
  simp
  omega

/-- The comment loop of `Scanner::scan_token` (`'/'` arm): advance until a
newline or end of input. -/
def commentLoop (s : ScanState) : Option ScanState :=
  match peek s with
  | none => none
  | some c =>
    if h : ¬ c = '\n' ∧ is_at_end s = false then
      match s.source.get? s.current with
      | none => none
      | some _ => commentLoop { s with current := s.current + 1 }
    else some s
termination_by byteLen s.source - s.current
decreasing_by
  have hc : s.current < byteLen s.source := by
    have h2 := h.2
    simp [is_at_end] at h2
    omega
  simp
  omega

/-- A digit-consuming `while` loop of `Scanner::number`. -/
def numberLoop (s : ScanState) : Option ScanState :=
  match hp : peek s with
  | none => none
  | some c =>
    if h : is_digit c = true then
      match s.source.get? s.current with
      | none => none
      | some _ => numberLoop { s with current := s.current + 1 }
    else some s
termination_by byteLen s.source - s.current
decreasing_by
  have hc : s.current < byteLen s.source := by
    by_cases hend : is_at_end s
    · rw [peek, if_pos hend] at hp
      cases hp
      simp [is_digit] at h
    · simp [is_at_end] at hend
      omega
  simp
  omega

/-- The `while is_alpha_numeric` loop of `Scanner::identifier`. -/
def identLoop (s : ScanState) : Option ScanState :=
  match hp : peek s with
  | none => none
  | some c =>
    if h : is_alpha_numeric c = true then
      match s.source.get? s.current with
      | none => none
      | some _ => identLoop { s with current := s.current + 1 }
    else some s
termination_by byteLen s.source - s.current
decreasing_by
  have hc : s.current < byteLen s.source := by
    by_cases hend : is_at_end s
    · rw [peek, if_pos hend] at hp
      cases hp
      simp [is_alpha_numeric, is_digit, is_alpha] at h
    · simp [is_at_end] at hend
      omega
  simp
  omega

/-- The routine `Scanner::string` from `src/scanner.rs`: scan to the closing quote; at
end of input push the "Unterminated string!" diagnostic — and then
unconditionally `advance` (which panics at end of input). -/
def scanString (s : ScanState) : Option ScanState :=
  match stringLoop s with
  | none => none
  | some s1 =>
    match advance (if is_at_end s1
        then { s1 with errors := s1.errors ++ [error s1.line "Unterminated string!"] }
        else s1) with
    | none => none
    | some (_, s3) =>
      some (add_token s3 TokenType.STRING (slice s3.source (s3.start + 1) (s3.current - 1)))

/-- The routine `Scanner::number` from `src/scanner.rs`. -/
def scanNumber (s : ScanState) : Option ScanState :=
  match numberLoop s with
  | none => none
  | some s1 =>
    match peek s1 with
    | none => none
    | some c =>
      if c = '.' then
        match peek_next s1 with
        | none => none
        | some c2 =>
          if is_digit c2 then
            match advance s1 with
            | none => none
            | some (_, s2) =>
              match numberLoop s2 with
              | none => none
              | some s3 =>
                some (add_token s3 TokenType.NUMBER (slice s3.source s3.start s3.current))
          else some (add_token s1 TokenType.NUMBER (slice s1.source s1.start s1.current))
      else some (add_token s1 TokenType.NUMBER (slice s1.source s1.start s1.current))

/-- The routine `Scanner::identifier` from `src/scanner.rs`; `text` is the slice
`source[start..current]` looked up in the keyword table. -/
def scanIdentifier (s : ScanState) : Option ScanState :=
  match identLoop s with
  | none => none
  | some s1 =>
    match keyword_lookup (slice s1.source s1.start s1.current) with
    | some k => some (add_empty_token s1 k)
    | none => some (add_empty_token s1 TokenType.IDENTIFIER)

/-- The dispatcher `Scanner::scan_token` from `src/scanner.rs`.  For the two-character
operators the token is added, and only then is `current` bumped past the
second character (`add_empty_token` before `self.current += 1` in the
source), so the recorded lexeme stops before the second character. -/
def scan_token (s : ScanState) : Option ScanState :=
  match advance s with
  | none => none
  | some (c, s1) =>
    match c with
    | '(' => some (add_empty_token s1 TokenType.LeftParen)
    | ')' => some (add_empty_token s1 TokenType.RightParen)
    | '\x7b' => some (add_empty_token s1 TokenType.LeftBrace)
    | '\x7d' => some (add_empty_token s1 TokenType.RightBrace)
    | ',' => some (add_empty_token s1 TokenType.Comma)
    | '.' => some (add_empty_token s1 TokenType.Dot)
    | '-' => some (add_empty_token s1 TokenType.Minus)
    | '+' => some (add_empty_token s1 TokenType.Plus)
    | ';' => some (add_empty_token s1 TokenType.SEMICOLON)
    | '*' => some (add_empty_token s1 TokenType.STAR)
    | '!' =>
      match match_next s1 '=' with
      | none => none
      | some b =>
        if b then some { add_empty_token s1 TokenType.BangEqual with current := s1.current + 1 }
        else some (add_empty_token s1 TokenType.BANG)
    | '=' =>
      match match_next s1 '=' with
      | none => none
      | some b =>
        if b then some { add_empty_token s1 TokenType.EqualEqual with current := s1.current + 1 }
        else some (add_empty_token s1 TokenType.EQUAL)
    | '<' =>
      match match_next s1 '=' with
      | none => none
      | some b =>
        if b then some { add_empty_token s1 TokenType.LessEqual with current := s1.current + 1 }
        else some (add_empty_token s1 TokenType.LESS)
    | '>' =>
      match match_next s1 '=' with
      | none => none
      | some b =>
        if b then some { add_empty_token s1 TokenType.GreaterEqual with current := s1.current + 1 }
        else some (add_empty_token s1 TokenType.GREATER)
    | '/' =>
      match match_next s1 '/' with
      | none => none
      | some b =>
        if b then commentLoop { s1 with current := s1.current + 1 }
        else some (add_empty_token s1 TokenType.SLASH)
    | ' ' | '\x0d' | '\t' => some s1
    | '\n' => some { s1 with line := s1.line + 1 }
    | '"' => scanString s1
    | c0 =>
      if is_digit c0 then scanNumber s1
      else if is_alpha c0 then scanIdentifier s1
      else some { s1 with errors := s1.errors ++ [error s1.line "Unexpected character."] }

/-- Unpacking `advance`: on success the cursor moves one character and
nothing else changes. -/
theorem advance_some {s : ScanState} {c : Char} {s' : ScanState}
    (h : advance s = some (c, s')) :
    s' = { s with current := s.current + 1 } ∧ s.source.get? s.current = some c := by
  rw [advance] at h
  split at h
  · cases h
  · rename_i c0 hg
    cases h
    exact ⟨rfl, hg⟩

/-- The loop `stringLoop` preserves the source, the token/error buffers and `start`,
and never moves the cursor backwards. -/
theorem stringLoop_progress : ∀ s s' : ScanState, stringLoop s = some s' →
    s'.source = s.source ∧ s.current ≤ s'.current ∧ s'.start = s.start ∧
    s'.tokens = s.tokens ∧ s'.errors = s.errors := by
  intro s
  generalize hn : byteLen s.source - s.current = n
  induction n using Nat.strong_induction_on generalizing s with
  | _ n ih =>
    intro s' h
    rw [stringLoop] at h
    split at h
    · cases h
    · rename_i c hp
      split at h
      · rename_i hcond
        split at h
        · cases h
        · rename_i c0 hg
          have hlt : s.current < byteLen s.source := by
            have h2 := hcond.2
            simp [is_at_end] at h2
            omega
          have hrec := ih (byteLen s.source - (s.current + 1)) (by omega) _ rfl _ h
          simp only [ScanState.source, ScanState.current, ScanState.start,
            ScanState.tokens, ScanState.errors, ScanState.line] at hrec
          obtain ⟨b1, b2, b3, b4, b5⟩ := hrec
          exact ⟨b1, by omega, b3, b4, b5⟩
      · cases h
        exact ⟨rfl, le_refl _, rfl, rfl, rfl⟩

/-- The loop `commentLoop` preserves everything but the cursor, which never moves
backwards. -/
theorem commentLoop_progress : ∀ s s' : ScanState, commentLoop s = some s' →
    s'.source = s.source ∧ s.current ≤ s'.current ∧ s'.start = s.start ∧
    s'.tokens = s.tokens ∧ s'.errors = s.errors ∧ s'.line = s.line := by
  intro s
  generalize hn : byteLen s.source - s.current = n
  induction n using Nat.strong_induction_on generalizing s with
  | _ n ih =>
    intro s' h
    rw [commentLoop] at h
    split at h
    · cases h
    · rename_i c hp
      split at h
      · rename_i hcond
        split at h
        · cases h
        · rename_i c0 hg
          have hlt : s.current < byteLen s.source := by
            have h2 := hcond.2
            simp [is_at_end] at h2
            omega
          have hrec := ih (byteLen s.source - (s.current + 1)) (by omega) _ rfl _ h
          simp only [ScanState.source, ScanState.current, ScanState.start,
            ScanState.tokens, ScanState.errors, ScanState.line] at hrec
          obtain ⟨b1, b2, b3, b4, b5, b6⟩ := hrec
          exact ⟨b1, by omega, b3, b4, b5, b6⟩
      · cases h
        exact ⟨rfl, le_refl _, rfl, rfl, rfl, rfl⟩

/-- The loop `numberLoop` preserves everything but the cursor, which never moves
backwards. -/
theorem numberLoop_progress : ∀ s s' : ScanState, numberLoop s = some s' →
    s'.source = s.source ∧ s.current ≤ s'.current ∧ s'.start = s.start ∧
    s'.tokens = s.tokens ∧ s'.errors = s.errors ∧ s'.line = s.line := by
  intro s
  generalize hn : byteLen s.source - s.current = n
  induction n using Nat.strong_induction_on generalizing s with
  | _ n ih =>
    intro s' h
    rw [numberLoop] at h
    split at h
    · cases h
    · rename_i c hp
      split at h
      · rename_i hdig
        split at h
        · cases h
        · rename_i c0 hg
          have hlt : s.current < byteLen s.source := by
            by_cases hend : is_at_end s
            · rw [peek, if_pos hend] at hp
              cases hp
              simp [is_digit] at hdig
            · simp [is_at_end] at hend
              omega
          have hrec := ih (byteLen s.source - (s.current + 1)) (by omega) _ rfl _ h
          simp only [ScanState.source, ScanState.current, ScanState.start,
            ScanState.tokens, ScanState.errors, ScanState.line] at hrec
          obtain ⟨b1, b2, b3, b4, b5, b6⟩ := hrec
          exact ⟨b1, by omega, b3, b4, b5, b6⟩
      · cases h
        exact ⟨rfl, le_refl _, rfl, rfl, rfl, rfl⟩

/-- The loop `identLoop` preserves everything but the cursor, which never moves
backwards. -/
theorem identLoop_progress : ∀ s s' : ScanState, identLoop s = some s' →
    s'.source = s.source ∧ s.current ≤ s'.current ∧ s'.start = s.start ∧
    s'.tokens = s.tokens ∧ s'.errors = s.errors ∧ s'.line = s.line := by
  intro s
  generalize hn : byteLen s.source - s.current = n
  induction n using Nat.strong_induction_on generalizing s with
  | _ n ih =>
    intro s' h
    rw [identLoop] at h
    split at h
    · cases h
    · rename_i c hp
      split at h
      · rename_i hal
        split at h
        · cases h
        · rename_i c0 hg
          have hlt : s.current < byteLen s.source := by
            by_cases hend : is_at_end s
            · rw [peek, if_pos hend] at hp
              cases hp
              simp [is_alpha_numeric, is_digit, is_alpha] at hal
            · simp [is_at_end] at hend
              omega
          have hrec := ih (byteLen s.source - (s.current + 1)) (by omega) _ rfl _ h
          simp only [ScanState.source, ScanState.current, ScanState.start,
            ScanState.tokens, ScanState.errors, ScanState.line] at hrec
          obtain ⟨b1, b2, b3, b4, b5, b6⟩ := hrec
          exact ⟨b1, by omega, b3, b4, b5, b6⟩
      · cases h
        exact ⟨rfl, le_refl _, rfl, rfl, rfl, rfl⟩

/-- The routine `scanString` preserves the source and never moves the cursor
backwards. -/
theorem scanString_progress {s s' : ScanState} (h : scanString s = some s') :
    s'.source = s.source ∧ s.current ≤ s'.current := by
  rw [scanString] at h
  split at h
  · cases h
  · rename_i s1 h1
    have p1 := stringLoop_progress _ _ h1
    by_cases hend : is_at_end s1
    · rw [if_pos hend] at h
      split at h
      · cases h
      · rename_i c s3 hadv
        obtain ⟨h3, -⟩ := advance_some hadv
        cases h
        subst h3
        refine ⟨by simpa [add_token] using p1.1, ?_⟩
        simp [add_token]
        omega
    · rw [if_neg hend] at h
      split at h
      · cases h
      · rename_i c s3 hadv
        obtain ⟨h3, -⟩ := advance_some hadv
        cases h
        subst h3
        refine ⟨by simpa [add_token] using p1.1, ?_⟩
        simp [add_token]
        omega

/-- The routine `scanNumber` preserves the source and never moves the cursor
backwards. -/
theorem scanNumber_progress {s s' : ScanState} (h : scanNumber s = some s') :
    s'.source = s.source ∧ s.current ≤ s'.current := by
  rw [scanNumber] at h
  split at h
  · cases h
  · rename_i s1 h1
    have p1 := numberLoop_progress _ _ h1
    split at h
    · cases h
    · rename_i c hp
      split at h
      · split at h
        · cases h
        · rename_i c2 hp2
          split at h
          · split at h
            · cases h
            · rename_i cd s2 hadv
              obtain ⟨h2, -⟩ := advance_some hadv
              split at h
              · cases h
              · rename_i s3 h3
                have p3 := numberLoop_progress _ _ h3
                cases h
                subst h2
                simp only [ScanState.source, ScanState.current] at p3
                refine ⟨by simp [add_token, p3.1, p1.1], ?_⟩
                simp [add_token]
                omega
          · cases h
            exact ⟨by simp [add_token, p1.1], by simp [add_token]; omega⟩
      · cases h
        exact ⟨by simp [add_token, p1.1], by simp [add_token]; omega⟩

/-- The routine `scanIdentifier` preserves the source and never moves the cursor
backwards. -/
theorem scanIdentifier_progress {s s' : ScanState} (h : scanIdentifier s = some s') :
    s'.source = s.source ∧ s.current ≤ s'.current := by
  rw [scanIdentifier] at h
  split at h
  · cases h
  · rename_i s1 h1
    have p1 := identLoop_progress _ _ h1
    split at h <;>
    · cases h
      refine ⟨by simp [add_empty_token, add_token, p1.1], ?_⟩
      simp [add_empty_token, add_token]
      omega

/-- Each `scan_token` step preserves the source and strictly advances the cursor:
the progress fact behind termination of the scanning loop. -/
theorem scan_token_progress {s s' : ScanState} (h : scan_token s = some s') :
    s'.source = s.source ∧ s.current < s'.current := by
  rw [scan_token] at h
  split at h
  · cases h
  · rename_i c s1 hadv
    obtain ⟨h1, -⟩ := advance_some hadv
    subst h1
    split at h
    -- single-character token arms
    case _ | _ | _ | _ | _ | _ | _ | _ | _ | _ =>
      cases h
      exact ⟨by simp [add_empty_token, add_token], by simp [add_empty_token, add_token]⟩
    -- two-character operator arms
    case _ | _ | _ | _ =>
      split at h
      · cases h
      · rename_i b hmn
        split at h <;> cases h <;>
          exact ⟨by simp [add_empty_token, add_token],
                 by simp only [add_empty_token, add_token, ScanState.current]; omega⟩
    -- slash or comment
    case _ =>
      split at h
      · cases h
      · rename_i b hmn
        split at h
        · have pc := commentLoop_progress _ _ h
          simp only [ScanState.source, ScanState.current] at pc
          exact ⟨pc.1, by omega⟩
        · cases h
          exact ⟨by simp [add_empty_token, add_token], by simp [add_empty_token, add_token]⟩
    -- whitespace
    case _ | _ | _ =>
      cases h
      exact ⟨rfl, by simp⟩
    -- newline
    case _ =>
      cases h
      exact ⟨rfl, by simp⟩
    -- string
    case _ =>
      have pc := scanString_progress h
      simp only [ScanState.source, ScanState.current] at pc
      exact ⟨pc.1, by omega⟩
    -- digits, identifiers or the unexpected-character diagnostic
    case _ =>
      split at h
      · have pc := scanNumber_progress h
        simp only [ScanState.source, ScanState.current] at pc
        exact ⟨pc.1, by omega⟩
      · split at h
        · have pc := scanIdentifier_progress h
          simp only [ScanState.source, ScanState.current] at pc
          exact ⟨pc.1, by omega⟩
        · cases h
          exact ⟨rfl, by simp⟩
/-- The `while !is_at_end` loop of `Scanner::scan_tokens`: set `start` to
`current` and scan one token, until the source is exhausted. -/
def scanLoop (s : ScanState) : Option ScanState :=
  if h : is_at_end s then some s
  else
    match hs : scan_token { s with start := s.current } with
    | none => none
    | some s1 => scanLoop s1
termination_by byteLen s.source - s.current
decreasing_by
  have hp := scan_token_progress hs
  simp only [ScanState.source, ScanState.current] at hp
  simp [is_at_end] at h
  rw [hp.1]
  omega

/-- The equation of `scanLoop`, for rewriting. -/
theorem scanLoop_eq (s : ScanState) : scanLoop s =
    if is_at_end s then some s
    else
      match scan_token { s with start := s.current } with
      | none => none
      | some s1 => scanLoop s1 := by
  rw [scanLoop]
  by_cases h : is_at_end s
  · simp [h]
  · simp only [h]
    cases hsc : scan_token { s with start := s.current } with
    | none => simp [hsc]
    | some s1 => simp [hsc]

/-- The entry point `Scanner::scan_tokens` run on a fresh scanner: the token and diagnostic
sequences accumulated by the loop (`Ok(self.tokens)` with `self.errors`
alongside), or `none` when the scanner panics. -/
def scan_tokens (source : List Char) : Option (List Token × List String) :=
  match scanLoop (Scanner.new source) with
  | none => none
  | some s => some (s.tokens, s.errors)
/-- AST node kinds, from `NodeType` in `src/node.rs`. -/
inductive NodeType where
  | Program | Expression | Binary | Unary | Grouping | Operator | Literal
deriving DecidableEq, Repr

/-- An AST node, from `Node` in `src/node.rs`: a kind, a child list and a
token (`Token::empty()` unless a parse function overwrites it). -/
inductive Node where
  | mk : NodeType → List Node → Token → Node

/-- The node kind field. -/
def Node.node_type : Node → NodeType
  | .mk t _ _ => t

/-- The children field. -/
def Node.children : Node → List Node
  | .mk _ c _ => c

/-- The token field. -/
def Node.token : Node → Token
  | .mk _ _ tk => tk

/-- A parse outcome: `none` is a Rust panic; otherwise the `Result` the
function returned, paired with the parser's cursor afterwards.  (In the
source an `Err` leaves the cursor wherever the failing function put it;
every caller that continues after an `Err` resets the cursor itself.) -/
abbrev PRes := Option ((Except String Node) × Nat)

/-- The accessor `Parser::current_token`: `self.tokens[self.current].clone()`, an
unchecked `Vec` index; `none` is the out-of-bounds panic. -/
def current_token (toks : List Token) (cur : Nat) : Option Token :=
  toks.get? cur

/-- The operator token kinds accepted by `Parser::parse_operator`. -/
def isOperatorType : TokenType → Bool
  | .EqualEqual | .BangEqual | .LESS | .LessEqual | .GreaterEqual | .GREATER
  | .Plus | .Minus | .STAR | .SLASH => true
  | _ => false

/-- The rule `Parser::parse_operator` from `src/parser.rs`. -/
def parse_operator (toks : List Token) (recurse cur : Nat) : PRes :=
  match recurse with
  | 0 => some (.error "Recursion error", cur)
  | _ + 1 =>
    match current_token toks cur with
    | none => none
    | some t =>
      if isOperatorType t.token_type then
        some (.ok (Node.mk NodeType.Operator [] t), cur + 1)
      else some (.error "", cur)

/-- The rule `Parser::parse_literal` from `src/parser.rs`: a NUMBER or STRING token,
or a token whose lexeme is `true`, `false` or `nil`. -/
def parse_literal (toks : List Token) (recurse cur : Nat) : PRes :=
  match recurse with
  | 0 => some (.error "Recursion error", cur)
  | _ + 1 =>
    match current_token toks cur with
    | none => none
    | some t =>
      if t.token_type = TokenType.NUMBER ∨ t.token_type = TokenType.STRING then
        some (.ok (Node.mk NodeType.Literal [] t), cur + 1)
      else if t.lexeme = "true".toList ∨ t.lexeme = "false".toList ∨ t.lexeme = "nil".toList then
        some (.ok (Node.mk NodeType.Literal [] t), cur + 1)
      else some (.error "", cur)

mutual

/-- The rule `Parser::parse_exspression` from `src/parser.rs`: try `parse_binary`,
`parse_grouping`, `parse_unary`, `parse_literal` in order from the saved
start cursor, wrapping the first success in an `Expression` node. -/
def parse_exspression (toks : List Token) (recurse cur : Nat) : PRes :=
  match recurse with
  | 0 => some (.error "Recursion error", cur)
  | r + 1 =>
    match parse_binary toks r cur with
    | none => none
    | some (.ok node, cur1) =>
      some (.ok (Node.mk NodeType.Expression [node] Token.empty), cur1)
    | some (.error _, _) =>
      match parse_grouping toks r cur with
      | none => none
      | some (.ok node, cur1) =>
        some (.ok (Node.mk NodeType.Expression [node] Token.empty), cur1)
      | some (.error _, _) =>
        match parse_unary toks r cur with
        | none => none
        | some (.ok node, cur1) =>
          some (.ok (Node.mk NodeType.Expression [node] Token.empty), cur1)
        | some (.error _, _) =>
          match parse_literal toks r cur with
          | none => none
          | some (.ok node, cur1) =>
            some (.ok (Node.mk NodeType.Expression [node] Token.empty), cur1)
          | some (.error e, _) => some (.error e, cur)

termination_by structural recurse

/-- The rule `Parser::parse_grouping` from `src/parser.rs`: after the inner
expression the cursor is advanced unconditionally (the `self.advance()`
commented `// ")"` never checks that a `)` is there). -/
def parse_grouping (toks : List Token) (recurse cur : Nat) : PRes :=
  match recurse with
  | 0 => some (.error "Recursion error", cur)
  | r + 1 =>
    match current_token toks cur with
    | none => none
    | some t =>
      if ¬ t.token_type = TokenType.LeftParen then some (.error "", cur)
      else
        match parse_exspression toks r (cur + 1) with
        | none => none
        | some (.ok node, cur1) =>
          some (.ok (Node.mk NodeType.Grouping [node] Token.empty), cur1 + 1)
        | some (.error e, cur1) => some (.error e, cur1 + 1)

termination_by structural recurse

/-- The rule `Parser::parse_binary` from `src/parser.rs`: one expression, one
operator, one expression — no folding loop; on failure the cursor is reset
to the start. -/
def parse_binary (toks : List Token) (recurse cur : Nat) : PRes :=
  match recurse with
  | 0 => some (.error "Recursion error", cur)
  | r + 1 =>
    match parse_exspression toks r cur with
    | none => none
    | some (.error e, _) => some (.error e, cur)
    | some (.ok node, cur1) =>
      match parse_operator toks r cur1 with
      | none => none
      | some (.error e, _) => some (.error e, cur)
      | some (.ok operator, cur2) =>
        match parse_exspression toks r cur2 with
        | none => none
        | some (.error e, _) => some (.error e, cur)
        | some (.ok node2, cur3) =>
          some (.ok (Node.mk NodeType.Binary [node, operator, node2] Token.empty), cur3)

termination_by structural recurse

/-- The rule `Parser::parse_unary` from `src/parser.rs`: a `!` or `-` token, then an
expression; the unary node's token is the sign token. -/
def parse_unary (toks : List Token) (recurse cur : Nat) : PRes :=
  match recurse with
  | 0 => some (.error "Recursion error", cur)
  | r + 1 =>
    match current_token toks cur with
    | none => none
    | some t =>
      if ¬ (t.token_type = TokenType.BANG ∨ t.token_type = TokenType.Minus) then
        some (.error "", cur)
      else
        match parse_exspression toks r (cur + 1) with
        | none => none
        | some (.ok node, cur1) => some (.ok (Node.mk NodeType.Unary [node] t), cur1)
        | some (.error e, _) => some (.error e, cur)
termination_by structural recurse

end

/-- The entry point `Parser::parse` from `src/parser.rs`: `parse_exspression(5)`, then
`expr.unwrap()` (panic on `Err`) wrapped in a `Program` node.  The result
also carries the final cursor, `self.current` after the call. -/
def parse (toks : List Token) : Option (Node × Nat) :=
  match parse_exspression toks 5 0 with
  | none => none
  | some (.error _, _) => none
  | some (.ok node, cur1) => some (Node.mk NodeType.Program [node] Token.empty, cur1)
/-- The arity discipline every `Node::new` call site in `src/parser.rs` and
`Parser::parse` follows: `Program`, `Expression`, `Grouping` and `Unary`
nodes get one child, `Binary` nodes get three with an `Operator` node in
the middle, `Literal` and `Operator` nodes get none. -/
def arity_ok : NodeType → List Node → Bool
  | NodeType.Program, cs => cs.length = 1
  | NodeType.Expression, cs => cs.length = 1
  | NodeType.Grouping, cs => cs.length = 1
  | NodeType.Unary, cs => cs.length = 1
  | NodeType.Binary, cs =>
    match cs with
    | [_, op, _] => op.node_type = NodeType.Operator
    | _ => false
  | NodeType.Literal, cs => cs.isEmpty
  | NodeType.Operator, cs => cs.isEmpty

/-- A node is well formed when it and all its descendants satisfy
`arity_ok`. -/
def wellFormed : Node → Bool
  | .mk t cs tk => arity_ok t cs && cs.attach.all (fun c => wellFormed c.1)
termination_by n => sizeOf n
decreasing_by
  have := List.sizeOf_lt_of_mem c.2
  simp
  omega

/-- The predicate `wellFormed` unfolded to a plain `List.all` over the children. -/
theorem wellFormed_mk (t : NodeType) (cs : List Node) (tk : Token) :
    wellFormed (Node.mk t cs tk) = (arity_ok t cs && cs.all wellFormed) := by
  rw [wellFormed]
  congr 1
  rw [Bool.eq_iff_iff, List.all_eq_true, List.all_eq_true]
  constructor
  · intro h c hc
    exact h ⟨c, hc⟩ (List.mem_attach _ _)
  · intro h c _
    exact h c.1 c.2

/-- A successful `parse_operator` returns a childless `Operator` node. -/
theorem parse_operator_spec {toks : List Token} {r cur : Nat} {node : Node} {cur1 : Nat}
    (h : parse_operator toks r cur = some (.ok node, cur1)) :
    ∃ t, node = Node.mk NodeType.Operator [] t := by
  match r with
  | 0 => simp [parse_operator] at h
  | r + 1 =>
    rw [parse_operator] at h
    split at h
    · cases h
    · rename_i t ht
      split at h
      · cases h
        exact ⟨t, rfl⟩
      · cases h

/-- A successful `parse_literal` returns a childless `Literal` node. -/
theorem parse_literal_spec {toks : List Token} {r cur : Nat} {node : Node} {cur1 : Nat}
    (h : parse_literal toks r cur = some (.ok node, cur1)) :
    ∃ t, node = Node.mk NodeType.Literal [] t := by
  match r with
  | 0 => simp [parse_literal] at h
  | r + 1 =>
    rw [parse_literal] at h
    split at h
    · cases h
    · rename_i t ht
      split at h
      · cases h
        exact ⟨t, rfl⟩
      · split at h
        · cases h
          exact ⟨t, rfl⟩
        · cases h

/-- Every node a recursive parse function returns successfully is well
formed, by induction on the recursion budget. -/
theorem parse_wf_aux : ∀ r : Nat, ∀ toks : List Token, ∀ cur : Nat,
    (∀ node cur1, parse_exspression toks r cur = some (.ok node, cur1) → wellFormed node = true) ∧
    (∀ node cur1, parse_grouping toks r cur = some (.ok node, cur1) → wellFormed node = true) ∧
    (∀ node cur1, parse_binary toks r cur = some (.ok node, cur1) → wellFormed node = true) ∧
    (∀ node cur1, parse_unary toks r cur = some (.ok node, cur1) → wellFormed node = true) := by
  intro r
  induction r with
  | zero =>
    intro toks cur
    refine ⟨?_, ?_, ?_, ?_⟩ <;>
      (intro node cur1 h
       simp [parse_exspression, parse_grouping, parse_binary, parse_unary] at h)
  | succ r ih =>
    intro toks cur
    refine ⟨?_, ?_, ?_, ?_⟩
    · intro node cur1 h
      rw [parse_exspression] at h
      split at h
      · cases h
      · rename_i n c1 hsub
        cases h
        rw [wellFormed_mk]
        simp [arity_ok, (ih toks cur).2.2.1 _ _ hsub]
      · split at h
        · cases h
        · rename_i n c1 hsub
          cases h
          rw [wellFormed_mk]
          simp [arity_ok, (ih toks cur).2.1 _ _ hsub]
        · split at h
          · cases h
          · rename_i n c1 hsub
            cases h
            rw [wellFormed_mk]
            simp [arity_ok, (ih toks cur).2.2.2 _ _ hsub]
          · split at h
            · cases h
            · rename_i n c1 hsub
              cases h
              rw [wellFormed_mk]
              obtain ⟨t, rfl⟩ := parse_literal_spec hsub
              simp [arity_ok, wellFormed_mk]
            · cases h
    · intro node cur1 h
      rw [parse_grouping] at h
      split at h
      · cases h
      · split at h
        · cases h
        · split at h
          · cases h
          · rename_i n c1 hsub
            cases h
            rw [wellFormed_mk]
            simp [arity_ok, (ih toks (cur + 1)).1 _ _ hsub]
          · cases h
    · intro node cur1 h
      rw [parse_binary] at h
      split at h
      · cases h
      · cases h
      · rename_i n1 c1 hsub1
        split at h
        · cases h
        · cases h
        · rename_i opn c2 hsub2
          split at h
          · cases h
          · cases h
          · rename_i n2 c3 hsub3
            cases h
            rw [wellFormed_mk]
            obtain ⟨t, rfl⟩ := parse_operator_spec hsub2
            simp [arity_ok, Node.node_type, wellFormed_mk,
              (ih toks cur).1 _ _ hsub1, (ih toks c2).1 _ _ hsub3]
    · intro node cur1 h
      rw [parse_unary] at h
      split at h
      · cases h
      · rename_i t ht
        split at h
        · cases h
        · split at h
          · cases h
          · rename_i n c1 hsub
            cases h
            rw [wellFormed_mk]
            simp [arity_ok, (ih toks (cur + 1)).1 _ _ hsub]
          · cases h
/-- Sources whose characters are all ASCII (UTF-8 byte count one each). -/
def asciiOnly (src : List Char) : Bool :=
  src.all (fun c => c.toNat < 128)

/-- On ASCII text the byte length is the character count. -/
theorem byteLen_ascii : ∀ src : List Char, asciiOnly src = true → byteLen src = src.length := by
  intro src h
  induction src with
  | nil => rfl
  | cons c cs ih =>
    simp [asciiOnly] at h
    have hc : utf8CharSize c = 1 := by
      rw [utf8CharSize, if_pos]
      exact h.1
    have hba : byteLen (c :: cs) = utf8CharSize c + byteLen cs := by
      simp [byteLen]
    rw [hba, hc, ih (by simp [asciiOnly]; exact h.2)]
    simp only [List.length_cons]
    omega

/-- Inside the source (byte-wise), an ASCII scanner state can read the
current character. -/
theorem get_total {s : ScanState} (hA : asciiOnly s.source = true)
    (hend : is_at_end s = false) : ∃ c, s.source.get? s.current = some c := by
  have hb := byteLen_ascii s.source hA
  simp [is_at_end] at hend
  rw [hb] at hend
  exact ⟨_, List.get?_eq_get hend⟩

/-- The lookahead `peek` never panics on ASCII text. -/
theorem peek_total {s : ScanState} (hA : asciiOnly s.source = true) :
    ∃ c, peek s = some c := by
  rw [peek]
  by_cases hend : is_at_end s
  · exact ⟨_, if_pos hend⟩
  · obtain ⟨c, hc⟩ := get_total hA (by simpa using hend)
    rw [if_neg hend]
    exact ⟨c, hc⟩

/-- The lookahead `peek_next` never panics on ASCII text. -/
theorem peek_next_total {s : ScanState} (hA : asciiOnly s.source = true) :
    ∃ c, peek_next s = some c := by
  rw [peek_next]
  by_cases hend : byteLen s.source ≤ s.current + 1
  · exact ⟨_, if_pos hend⟩
  · rw [if_neg hend]
    have hb := byteLen_ascii s.source hA
    refine ⟨_, List.get?_eq_get ?_⟩
    omega

/-- The lookahead `match_next` never panics on ASCII text. -/
theorem match_next_total {s : ScanState} (hA : asciiOnly s.source = true) (e : Char) :
    ∃ b, match_next s e = some b := by
  rw [match_next]
  by_cases hend : is_at_end s
  · exact ⟨_, if_pos hend⟩
  · obtain ⟨c, hc⟩ := get_total hA (by simpa using hend)
    rw [if_neg hend, hc]
    exact ⟨_, rfl⟩

/-- The loop `commentLoop` never panics on ASCII text. -/
theorem commentLoop_total : ∀ s : ScanState, asciiOnly s.source = true →
    ∃ s', commentLoop s = some s' := by
  intro s
  generalize hn : byteLen s.source - s.current = n
  induction n using Nat.strong_induction_on generalizing s with
  | _ n ih =>
    intro hA
    rw [commentLoop]
    obtain ⟨c, hc⟩ := peek_total hA
    simp only [hc]
    by_cases hcond : ¬ c = '\n' ∧ is_at_end s = false
    · rw [dif_pos hcond]
      obtain ⟨c0, hc0⟩ := get_total hA hcond.2
      simp only [hc0]
      have hlt : s.current < byteLen s.source := by
        have h2 := hcond.2
        simp [is_at_end] at h2
        omega
      exact ih (byteLen s.source - (s.current + 1)) (by omega) _ rfl hA
    · rw [dif_neg hcond]
      exact ⟨s, rfl⟩

/-- The loop `numberLoop` never panics on ASCII text. -/
theorem numberLoop_total : ∀ s : ScanState, asciiOnly s.source = true →
    ∃ s', numberLoop s = some s' := by
  intro s
  generalize hn : byteLen s.source - s.current = n
  induction n using Nat.strong_induction_on generalizing s with
  | _ n ih =>
    intro hA
    rw [numberLoop]
    split
    · rename_i hp
      obtain ⟨c, hc⟩ := peek_total hA
      rw [hp] at hc
      cases hc
    · rename_i c hp
      split
      · rename_i hdig
        have hend : is_at_end s = false := by
          by_contra hcon
          simp only [Bool.not_eq_false] at hcon
          rw [peek, if_pos hcon] at hp
          cases hp
          simp [is_digit] at hdig
        split
        · rename_i hget
          obtain ⟨c0, hc0⟩ := get_total hA hend
          rw [hget] at hc0
          cases hc0
        · rename_i c0 hget
          have hlt : s.current < byteLen s.source := by
            simp [is_at_end] at hend
            omega
          exact ih (byteLen s.source - (s.current + 1)) (by omega) _ rfl hA
      · exact ⟨s, rfl⟩

/-- The loop `identLoop` never panics on ASCII text. -/
theorem identLoop_total : ∀ s : ScanState, asciiOnly s.source = true →
    ∃ s', identLoop s = some s' := by
  intro s
  generalize hn : byteLen s.source - s.current = n
  induction n using Nat.strong_induction_on generalizing s with
  | _ n ih =>
    intro hA
    rw [identLoop]
    split
    · rename_i hp
      obtain ⟨c, hc⟩ := peek_total hA
      rw [hp] at hc
      cases hc
    · rename_i c hp
      split
      · rename_i hal
        have hend : is_at_end s = false := by
          by_contra hcon
          simp only [Bool.not_eq_false] at hcon
          rw [peek, if_pos hcon] at hp
          cases hp
          simp [is_alpha_numeric, is_digit, is_alpha] at hal
        split
        · rename_i hget
          obtain ⟨c0, hc0⟩ := get_total hA hend
          rw [hget] at hc0
          cases hc0
        · rename_i c0 hget
          have hlt : s.current < byteLen s.source := by
            simp [is_at_end] at hend
            omega
          exact ih (byteLen s.source - (s.current + 1)) (by omega) _ rfl hA
      · exact ⟨s, rfl⟩

/-- The routine `scanNumber` never panics on ASCII text. -/
theorem scanNumber_total {s : ScanState} (hA : asciiOnly s.source = true) :
    ∃ s', scanNumber s = some s' := by
  rw [scanNumber]
  split
  · rename_i h1
    obtain ⟨s1, hs1⟩ := numberLoop_total s hA
    rw [h1] at hs1
    cases hs1
  · rename_i s1 h1
    have hA1 : asciiOnly s1.source = true := by
      rw [(numberLoop_progress _ _ h1).1]
      exact hA
    split
    · rename_i hp
      obtain ⟨c, hc⟩ := peek_total hA1
      rw [hp] at hc
      cases hc
    · rename_i c hp
      split
      · rename_i hdot
        split
        · rename_i hp2
          obtain ⟨c2, hc2⟩ := peek_next_total hA1
          rw [hp2] at hc2
          cases hc2
        · rename_i c2 hp2
          split
          · rename_i hdig2
            have hend : is_at_end s1 = false := by
              by_contra hcon
              simp only [Bool.not_eq_false] at hcon
              rw [peek, if_pos hcon] at hp
              cases hp
              simp at hdot
            obtain ⟨c0, hc0⟩ := get_total hA1 hend
            split
            · rename_i hadv
              rw [advance, hc0] at hadv
              cases hadv
            · rename_i cx s2 hadv
              obtain ⟨hrec, -⟩ := advance_some hadv
              split
              · rename_i h3
                obtain ⟨s3, hs3⟩ := numberLoop_total s2 (by rw [hrec]; simpa using hA1)
                rw [h3] at hs3
                cases hs3
              · exact ⟨_, rfl⟩
          · exact ⟨_, rfl⟩
      · exact ⟨_, rfl⟩

/-- The routine `scanIdentifier` never panics on ASCII text. -/
theorem scanIdentifier_total {s : ScanState} (hA : asciiOnly s.source = true) :
    ∃ s', scanIdentifier s = some s' := by
  obtain ⟨s1, h1⟩ := identLoop_total s hA
  rw [scanIdentifier]
  simp only [h1]
  cases hk : keyword_lookup (slice s1.source s1.start s1.current) with
  | none => simp only [hk]; exact ⟨_, rfl⟩
  | some k => simp only [hk]; exact ⟨_, rfl⟩

/-- On ASCII text with no `"` character, one `scan_token` step away from
the end of input never panics. -/
theorem scan_token_total {s : ScanState} (hA : asciiOnly s.source = true)
    (hq : ¬ '"' ∈ s.source) (hend : is_at_end s = false) :
    ∃ s', scan_token s = some s' := by
  obtain ⟨c, hget⟩ := get_total hA hend
  rw [scan_token]
  simp only [advance, hget]
  have hs1 : asciiOnly (ScanState.mk s.source s.tokens s.errors s.start (s.current + 1) s.line).source = true := hA
  split
  any_goals exact ⟨_, rfl⟩
  -- two-character operator arms and slash
  case _ | _ | _ | _ =>
    obtain ⟨b, hb⟩ := match_next_total hs1 '='
    simp only [hb]
    cases b <;> exact ⟨_, rfl⟩
  case _ =>
    obtain ⟨b, hb⟩ := match_next_total hs1 '/'
    simp only [hb]
    cases b
    · exact ⟨_, rfl⟩
    · simp only [if_pos]
      exact commentLoop_total _ hA
  -- the string arm contradicts the no-quote hypothesis
  case _ =>
    exact absurd (List.get?_mem hget) hq
  -- digits, identifiers, unexpected characters
  case _ =>
    split
    · exact scanNumber_total hs1
    · split
      · exact scanIdentifier_total hs1
      · exact ⟨_, rfl⟩

/-- The scan loop never panics on ASCII text with no `"` character. -/
theorem scanLoop_total : ∀ s : ScanState, asciiOnly s.source = true →
    ¬ '"' ∈ s.source → ∃ s', scanLoop s = some s' := by
  intro s
  generalize hn : byteLen s.source - s.current = n
  induction n using Nat.strong_induction_on generalizing s with
  | _ n ih =>
    intro hA hq
    rw [scanLoop_eq]
    by_cases hend : is_at_end s
    · rw [if_pos hend]
      exact ⟨s, rfl⟩
    · rw [if_neg hend]
      have hend' : is_at_end (ScanState.mk s.source s.tokens s.errors s.current s.current s.line) = false := by
        simpa [is_at_end] using hend
      obtain ⟨s1, h1⟩ := scan_token_total (s := { s with start := s.current }) hA hq hend'
      simp only [h1]
      have hp := scan_token_progress h1
      simp only [ScanState.source, ScanState.current] at hp
      have hlt : s.current < byteLen s.source := by
        simp [is_at_end] at hend
        omega
      exact ih (byteLen s1.source - s1.current)
        (by rw [hp.1]; omega) s1 rfl (by rw [hp.1]; exact hA) (by rw [hp.1]; exact hq)
/-- The single-character punctuation characters whose scanner arm is just
`add_empty_token` (no lookahead, no loops; `/` is excluded because two in a
row start a comment). -/
def simpleChar (c : Char) : Bool :=
  c ∈ ['(', ')', '\x7b', '\x7d', ',', '.', '-', '+', ';', '*']

/-- The token kind the scanner gives each simple character. -/
def simpleType (c : Char) : TokenType :=
  if c = '(' then TokenType.LeftParen
  else if c = ')' then TokenType.RightParen
  else if c = '\x7b' then TokenType.LeftBrace
  else if c = '\x7d' then TokenType.RightBrace
  else if c = ',' then TokenType.Comma
  else if c = '.' then TokenType.Dot
  else if c = '-' then TokenType.Minus
  else if c = '+' then TokenType.Plus
  else if c = ';' then TokenType.SEMICOLON
  else TokenType.STAR

/-- The token the scanner emits for a simple character on line `l`. -/
def simpleToken (l : Nat) (c : Char) : Token :=
  { token_type := simpleType c, lexeme := [c], literal := [], line := l }

/-- Simple characters are ASCII. -/
theorem simpleChar_ascii {c : Char} (h : simpleChar c = true) : c.toNat < 128 := by
  simp [simpleChar] at h
  rcases h with rfl | rfl | rfl | rfl | rfl | rfl | rfl | rfl | rfl | rfl <;> decide

/-- A one-character slice at a readable index. -/
theorem slice_one {src : List Char} {k : Nat} {c : Char} (hget : src.get? k = some c) :
    slice src k (k + 1) = [c] := by
  have hlt : k < src.length := List.get?_eq_some.mp hget |>.1
  have hgetE : src[k] = c := by
    rw [List.get?_eq_getElem?] at hget
    rw [List.getElem?_eq_getElem hlt] at hget
    injection hget
  rw [slice, List.drop_take, List.drop_eq_getElem_cons hlt]
  simp [hgetE]
/-- One `scan_token` step on a simple character emits exactly its token and
moves the cursor one place. -/
theorem scan_token_simple {src : List Char} {k : Nat} {ts : List Token}
    {es : List String} {l : Nat} {c : Char}
    (hget : src.get? k = some c) (hc : simpleChar c = true) :
    scan_token (ScanState.mk src ts es k k l) =
      some (ScanState.mk src (ts ++ [simpleToken l c]) es k (k + 1) l) := by
  have hsl : slice src k (k + 1) = [c] := slice_one hget
  rw [scan_token]
  simp only [advance, ScanState.source, ScanState.current, hget]
  split <;>
    first
    | (simp [simpleChar] at hc
       done)
    | (simp only [add_empty_token, add_token, ScanState.source, ScanState.start,
        ScanState.current, ScanState.tokens, ScanState.errors, ScanState.line, hsl]
       simp +decide [simpleToken, simpleType]
       done)
    | (simp [simpleChar] at hc
       rcases hc with rfl | rfl | rfl | rfl | rfl | rfl | rfl | rfl | rfl | rfl <;> simp_all)
/-- Scanning a source of simple characters from position `k` appends one
token per remaining character and no diagnostics. -/
theorem scanLoop_simple : ∀ n : Nat, ∀ src : List Char, ∀ k : Nat,
    ∀ ts : List Token, ∀ es : List String, ∀ st l : Nat,
    (∀ c ∈ src, simpleChar c = true) → src.length - k = n → k ≤ src.length →
    ∃ fin, scanLoop (ScanState.mk src ts es st k l) = some fin ∧
      fin.tokens = ts ++ (src.drop k).map (simpleToken l) ∧ fin.errors = es := by
  intro n
  induction n with
  | zero =>
    intro src k ts es st l hsimple hn hk
    have hkeq : k = src.length := by omega
    have hb : byteLen src = src.length := by
      apply byteLen_ascii
      rw [asciiOnly, List.all_eq_true]
      intro c hc
      simpa using simpleChar_ascii (hsimple c hc)
    rw [scanLoop_eq, if_pos (by simp [is_at_end, hb]; omega)]
    refine ⟨_, rfl, ?_, rfl⟩
    rw [hkeq, List.drop_length]
    simp
  | succ n ih =>
    intro src k ts es st l hsimple hn hk
    have hlt : k < src.length := by omega
    have hb : byteLen src = src.length := by
      apply byteLen_ascii
      rw [asciiOnly, List.all_eq_true]
      intro c hc
      simpa using simpleChar_ascii (hsimple c hc)
    rw [scanLoop_eq, if_neg (by simp [is_at_end, hb]; omega)]
    obtain ⟨c, hget⟩ : ∃ c, src.get? k = some c := ⟨_, List.get?_eq_get hlt⟩
    have hstep : scan_token (ScanState.mk src ts es k k l) =
        some (ScanState.mk src (ts ++ [simpleToken l c]) es k (k + 1) l) :=
      scan_token_simple hget (hsimple c (List.get?_mem hget))
    simp only [ScanState.source, ScanState.current, ScanState.tokens,
      ScanState.errors, ScanState.start, ScanState.line]
    rw [hstep]
    obtain ⟨fin, hfin, hts, hes⟩ :=
      ih src (k + 1) (ts ++ [simpleToken l c]) es k l hsimple (by omega) (by omega)
    refine ⟨fin, hfin, ?_, hes⟩
    rw [hts]
    have hdk : src.drop k = c :: src.drop (k + 1) := by
      have hgetE : src[k] = c := by
        rw [List.get?_eq_getElem?] at hget
        rw [List.getElem?_eq_getElem hlt] at hget
        injection hget
      rw [List.drop_eq_getElem_cons hlt, hgetE]
    rw [hdk]
    simp
/-- Running `scan_tokens` on a source of simple characters: one token per
character, in order, no diagnostics. -/
theorem scan_tokens_simple (src : List Char) (h : ∀ c ∈ src, simpleChar c = true) :
    scan_tokens src = some (src.map (simpleToken 1), []) := by
  obtain ⟨fin, hfin, hts, hes⟩ :=
    scanLoop_simple src.length src 0 [] [] 0 1 h (by omega) (by omega)
  rw [scan_tokens, Scanner.new]
  simp only [hfin]
  rw [hts, hes]
  simp

/-- Concatenating the lexemes of the simple tokens gives back the
source. -/
theorem join_lexemes_simple (src : List Char) (l : Nat) :
    (((src.map (simpleToken l)).map Token.lexeme).flatten) = src := by
  induction src with
  | nil => rfl
  | cons c cs ih =>
    simp only [List.map_cons, List.flatten_cons]
    rw [ih]
    rfl

/-- For every input, the scanner either panics or terminates with token
and diagnostic sequences; on ASCII input with no `"` character it never
panics. -/
theorem scan_tokens_total (source : List Char) (hA : asciiOnly source = true)
    (hq : ¬ '"' ∈ source) : (scan_tokens source).isSome = true := by
  obtain ⟨s', h⟩ := scanLoop_total (Scanner.new source) hA hq
  rw [scan_tokens]
  simp only [h]
  rfl
/-- A NUMBER token as the scanner emits it (lexeme = literal = digits). -/
def tokNum (s : List Char) : Token :=
  { token_type := TokenType.NUMBER, lexeme := s, literal := s, line := 1 }

/-- A punctuation/operator token as the scanner emits it. -/
def tokOp (t : TokenType) (c : Char) : Token :=
  { token_type := t, lexeme := [c], literal := [], line := 1 }

/-- The token sequence the scanner produces for `"1+2*3"`. -/
def toks135 : List Token :=
  [tokNum ['1'], tokOp TokenType.Plus '+', tokNum ['2'],
   tokOp TokenType.STAR '*', tokNum ['3']]

/-- The AST the parser actually produces for `"1+2*3"`:
`Binary(+, 1, 2)` under the Program/Expression wrappers. -/
def tree135 : Node :=
  Node.mk NodeType.Program
    [Node.mk NodeType.Expression
      [Node.mk NodeType.Binary
        [Node.mk NodeType.Expression [Node.mk NodeType.Literal [] (tokNum ['1'])] Token.empty,
         Node.mk NodeType.Operator [] (tokOp TokenType.Plus '+'),
         Node.mk NodeType.Expression [Node.mk NodeType.Literal [] (tokNum ['2'])] Token.empty]
        Token.empty]
      Token.empty]
    Token.empty

/-- The token sequence the scanner produces for `"1-2-3"`. -/
def toks1m2m3 : List Token :=
  [tokNum ['1'], tokOp TokenType.Minus '-', tokNum ['2'],
   tokOp TokenType.Minus '-', tokNum ['3']]

/-- The AST the parser actually produces for `"1-2-3"`:
`Binary(-, 1, 2)` under the Program/Expression wrappers. -/
def tree1m2m3 : Node :=
  Node.mk NodeType.Program
    [Node.mk NodeType.Expression
      [Node.mk NodeType.Binary
        [Node.mk NodeType.Expression [Node.mk NodeType.Literal [] (tokNum ['1'])] Token.empty,
         Node.mk NodeType.Operator [] (tokOp TokenType.Minus '-'),
         Node.mk NodeType.Expression [Node.mk NodeType.Literal [] (tokNum ['2'])] Token.empty]
        Token.empty]
      Token.empty]
    Token.empty

/-- The token sequence the scanner produces for `"(1+2"`. -/
def toksOpenGroup : List Token :=
  [tokOp TokenType.LeftParen '(', tokNum ['1'], tokOp TokenType.Plus '+', tokNum ['2']]

/-- The AST the parser actually produces for `"(1+2"`: a `Grouping` around
just the literal `1`. -/
def treeOpenGroup : Node :=
  Node.mk NodeType.Program
    [Node.mk NodeType.Expression
      [Node.mk NodeType.Grouping
        [Node.mk NodeType.Expression [Node.mk NodeType.Literal [] (tokNum ['1'])] Token.empty]
        Token.empty]
      Token.empty]
    Token.empty

/-- Strip one `Expression` wrapper. -/
def unwrap1 (n : Node) : Node :=
  match n with
  | Node.mk NodeType.Expression [c] _ => c
  | x => x

/-- Strip up to three `Expression` wrappers (the parser nests at most a
few around each operand). -/
def unwrapE (n : Node) : Node :=
  unwrap1 (unwrap1 (unwrap1 n))

/-- The expression under the `Program` root. -/
def rootExpr (n : Node) : Node :=
  match n with
  | Node.mk NodeType.Program [c] _ => c
  | x => x

/-- Is this node (under `Expression` wrappers) the numeric literal with
the given digits? -/
def litNum (n : Node) (s : List Char) : Bool :=
  match unwrapE n with
  | Node.mk NodeType.Literal [] t =>
    t.token_type = TokenType.NUMBER && t.lexeme = s
  | _ => false

/-- View a node (under `Expression` wrappers) as a binary application:
left operand, operator kind, right operand. -/
def binView (n : Node) : Option (Node × TokenType × Node) :=
  match unwrapE n with
  | Node.mk NodeType.Binary [l, Node.mk NodeType.Operator [] t, r] _ =>
    some (l, t.token_type, r)
  | _ => none

/-- The shape claimed for parsing `"1+2*3"`: all five tokens consumed and
the root expression is `Binary(+, Literal 1, Binary(*, Literal 2,
Literal 3))`. -/
def c1ClaimShape (res : Option (Node × Nat)) : Bool :=
  match res with
  | none => false
  | some (root, n) =>
    n = 5 &&
    (match binView (rootExpr root) with
     | some (l, op, r) =>
       op = TokenType.Plus && litNum l ['1'] &&
       (match binView r with
        | some (l2, op2, r2) =>
          op2 = TokenType.STAR && litNum l2 ['2'] && litNum r2 ['3']
        | none => false)
     | none => false)

/-- The shape claimed for parsing `"1-2-3"`: the root expression is
`Binary(-, Binary(-, Literal 1, Literal 2), Literal 3)`. -/
def c7ClaimShape (res : Option (Node × Nat)) : Bool :=
  match res with
  | none => false
  | some (root, _) =>
    match binView (rootExpr root) with
    | some (l, op, r) =>
      op = TokenType.Minus && litNum r ['3'] &&
      (match binView l with
       | some (l2, op2, r2) =>
         op2 = TokenType.Minus && litNum l2 ['1'] && litNum r2 ['2']
       | none => false)
    | none => false
/-- C1.  Counterexample: scanning `"1+2*3"` gives the five expected tokens,
but `parse` does not produce `Binary(+, Literal 1, Binary(*, Literal 2,
Literal 3))` with all five tokens consumed — the claimed shape is false on
the code. -/
theorem c1_precedence_counterexample :
    scan_tokens ("1+2*3".toList) = some (toks135, []) ∧
    c1ClaimShape (parse toks135) = false := by
  constructor
  · simp [scan_tokens, Scanner.new, scanLoop_eq, scan_token, is_at_end, byteLen, utf8CharSize,
      advance, match_next, peek, peek_next, add_empty_token, add_token, slice, is_digit, is_alpha,
      scanNumber, numberLoop, scanIdentifier, identLoop, scanString, stringLoop, commentLoop,
      keyword_lookup, error, report, toks135, tokNum, tokOp]
  · decide

/-- C1 (amended).  Parsing the token sequence of `"1+2*3"` stops after the
first operator-operand pair: the result is `Binary(+, Literal 1,
Literal 2)` under the Program/Expression wrappers, with only the first
three of the five tokens consumed (`*` and `3` are left unread). -/
theorem c1_precedence_amended :
    scan_tokens ("1+2*3".toList) = some (toks135, []) ∧
    parse toks135 = some (tree135, 3) := by
  constructor
  · simp [scan_tokens, Scanner.new, scanLoop_eq, scan_token, is_at_end, byteLen, utf8CharSize,
      advance, match_next, peek, peek_next, add_empty_token, add_token, slice, is_digit, is_alpha,
      scanNumber, numberLoop, scanIdentifier, identLoop, scanString, stringLoop, commentLoop,
      keyword_lookup, error, report, toks135, tokNum, tokOp]
  · rfl

/-- C2.  Counterexample: the claim says no input aborts the pass, but on
the one-character non-ASCII input `"é"` the scanner panics (the byte-count
`is_at_end` bound disagrees with character indexing, so `advance` hits an
out-of-range `unwrap`). -/
theorem c2_scan_counterexample : scan_tokens ("é".toList) = none := by
  simp [scan_tokens, Scanner.new, scanLoop_eq, scan_token, is_at_end, byteLen, utf8CharSize,
    advance, match_next, peek, peek_next, add_empty_token, add_token, slice, is_digit, is_alpha,
    scanNumber, numberLoop, scanIdentifier, identLoop, scanString, stringLoop, commentLoop,
    keyword_lookup, error, report]

/-- C2 (amended).  Scanning terminates with a token sequence plus a
diagnostic sequence for every ASCII input containing no `"` character; in
general a lexical error can abort the pass (unterminated strings and
non-ASCII input panic). -/
theorem c2_scan_terminates_ascii (source : List Char) (hA : asciiOnly source = true)
    (hq : ¬ '"' ∈ source) : (scan_tokens source).isSome = true :=
  scan_tokens_total source hA hq

/-- C2 witness: the amended theorem applied to a concrete ASCII input. -/
theorem c2_scan_terminates_witness : (scan_tokens ("var x = 1 // ok".toList)).isSome = true :=
  c2_scan_terminates_ascii ("var x = 1 // ok".toList) (by decide) (by decide)

/-- C3.  On the unterminated string `"\"abc"` the scanner does push the
unterminated-string diagnostic, but then unconditionally `advance`s past
the end of input and panics (out-of-range `unwrap`), so the whole pass
aborts instead of terminating cleanly with that diagnostic. -/
theorem c3_unterminated_string_panics : scan_tokens ("\"abc".toList) = none := by
  simp [scan_tokens, Scanner.new, scanLoop_eq, scan_token, is_at_end, byteLen, utf8CharSize,
    advance, match_next, peek, peek_next, add_empty_token, add_token, slice, is_digit, is_alpha,
    scanNumber, numberLoop, scanIdentifier, identLoop, scanString, stringLoop, commentLoop,
    keyword_lookup, error, report]

/-- C4.  For the token sequence of `"(1+2"` the parser emits no diagnostic
at all (it has no diagnostic channel) and silently consumes the `+` where
`)` was expected: the result is a `Grouping` around just the literal `1`,
with the trailing `2` unread. -/
theorem c4_unclosed_grouping_eval :
    scan_tokens ("(1+2".toList) = some (toksOpenGroup, []) ∧
    parse toksOpenGroup = some (treeOpenGroup, 3) := by
  constructor
  · simp [scan_tokens, Scanner.new, scanLoop_eq, scan_token, is_at_end, byteLen, utf8CharSize,
      advance, match_next, peek, peek_next, add_empty_token, add_token, slice, is_digit, is_alpha,
      scanNumber, numberLoop, scanIdentifier, identLoop, scanString, stringLoop, commentLoop,
      keyword_lookup, error, report, toksOpenGroup, tokNum, tokOp]
  · rfl

/-- C5.  The scanner appends no end-of-input token for `"1"`, and
`current_token` indexes the token vector unchecked, so parsing the
scanner's output for the well-formed one-token input `"1"` panics
(out-of-bounds index when `parse_binary` looks for an operator). -/
theorem c5_no_eof_convention_panics :
    scan_tokens ("1".toList) = some ([tokNum ['1']], []) ∧
    parse [tokNum ['1']] = none := by
  constructor
  · simp [scan_tokens, Scanner.new, scanLoop_eq, scan_token, is_at_end, byteLen, utf8CharSize,
      advance, match_next, peek, peek_next, add_empty_token, add_token, slice, is_digit, is_alpha,
      scanNumber, numberLoop, scanIdentifier, identLoop, scanString, stringLoop, commentLoop,
      keyword_lookup, error, report, tokNum]
  · rfl

/-- C6.  Maximal munch holds for the token kinds: `"<="` scans to exactly
one LessEqual token (never Less then Equal), and `"!="`, `"=="`, `">="`
likewise each scan to one token of the two-character kind. -/
theorem c6_maximal_munch :
    (scan_tokens ("<=".toList)).map (fun r => r.1.map Token.token_type)
      = some [TokenType.LessEqual] ∧
    (scan_tokens ("!=".toList)).map (fun r => r.1.map Token.token_type)
      = some [TokenType.BangEqual] ∧
    (scan_tokens ("==".toList)).map (fun r => r.1.map Token.token_type)
      = some [TokenType.EqualEqual] ∧
    (scan_tokens (">=".toList)).map (fun r => r.1.map Token.token_type)
      = some [TokenType.GreaterEqual] := by
  refine ⟨?_, ?_, ?_, ?_⟩ <;>
    simp [scan_tokens, Scanner.new, scanLoop_eq, scan_token, is_at_end, byteLen, utf8CharSize,
      advance, match_next, peek, peek_next, add_empty_token, add_token, slice, is_digit, is_alpha,
      scanNumber, numberLoop, scanIdentifier, identLoop, scanString, stringLoop, commentLoop,
      keyword_lookup, error, report]

/-- C8.  The LessEqual token scanned from `"<="` carries lexeme `"<"`, not
`"<="`: the token is added before `current` is bumped past the second
character, so the recorded slice stops after the first character. -/
theorem c8_two_char_lexeme_truncated :
    scan_tokens ("<=".toList) =
      some ([{ token_type := TokenType.LessEqual, lexeme := ['<'], literal := [], line := 1 }], []) := by
  simp [scan_tokens, Scanner.new, scanLoop_eq, scan_token, is_at_end, byteLen, utf8CharSize,
    advance, match_next, peek, peek_next, add_empty_token, add_token, slice, is_digit, is_alpha,
    scanNumber, numberLoop, scanIdentifier, identLoop, scanString, stringLoop, commentLoop,
    keyword_lookup, error, report]

/-- C9.  Counterexample: `"1 1"` scans to two NUMBER tokens whose lexeme
concatenation is `"11"`, and re-scanning `"11"` gives one NUMBER token —
not an equivalent sequence (different length, kinds list and lexemes). -/
theorem c9_roundtrip_counterexample :
    scan_tokens ("1 1".toList) = some ([tokNum ['1'], tokNum ['1']], []) ∧
    (([tokNum ['1'], tokNum ['1']].map Token.lexeme).flatten) = "11".toList ∧
    scan_tokens ("11".toList) = some ([tokNum ['1', '1']], []) ∧
    ¬ ([tokNum ['1'], tokNum ['1']].map Token.token_type)
        = ([tokNum ['1', '1']].map Token.token_type) ∧
    ¬ ([tokNum ['1'], tokNum ['1']].map Token.lexeme)
        = ([tokNum ['1', '1']].map Token.lexeme) := by
  refine ⟨?_, by decide, ?_, by decide, by decide⟩ <;>
    simp [scan_tokens, Scanner.new, scanLoop_eq, scan_token, is_at_end, byteLen, utf8CharSize,
      advance, match_next, peek, peek_next, add_empty_token, add_token, slice, is_digit, is_alpha,
      scanNumber, numberLoop, scanIdentifier, identLoop, scanString, stringLoop, commentLoop,
      keyword_lookup, error, report, tokNum]

/-- C9 (amended).  For sources made only of the single-character
punctuation tokens `( ) { } , . - + ; *`, re-scanning the lexeme
concatenation reproduces exactly the same token sequence; in general the
round trip fails (adjacent tokens merge and two-character operators lose
their second character). -/
theorem c9_roundtrip_simple (src : List Char) (h : ∀ c ∈ src, simpleChar c = true) :
    ∃ ts, scan_tokens src = some (ts, []) ∧
      (ts.map Token.lexeme).flatten = src ∧
      scan_tokens ((ts.map Token.lexeme).flatten) = some (ts, []) := by
  refine ⟨src.map (simpleToken 1), scan_tokens_simple src h, join_lexemes_simple src 1, ?_⟩
  rw [join_lexemes_simple src 1]
  exact scan_tokens_simple src h

/-- C9 witness: the amended round trip at the concrete source `"(+*;"`. -/
theorem c9_roundtrip_simple_witness :
    ∃ ts, scan_tokens ("(+*;".toList) = some (ts, []) ∧
      (ts.map Token.lexeme).flatten = "(+*;".toList ∧
      scan_tokens ((ts.map Token.lexeme).flatten) = some (ts, []) :=
  c9_roundtrip_simple ("(+*;".toList) (by decide)

/-- C7.  Counterexample: scanning `"1-2-3"` gives the five expected
tokens, but `parse` does not produce the left-nested
`Binary(-, Binary(-, Literal 1, Literal 2), Literal 3)`. -/
theorem c7_left_assoc_counterexample :
    scan_tokens ("1-2-3".toList) = some (toks1m2m3, []) ∧
    c7ClaimShape (parse toks1m2m3) = false := by
  constructor
  · simp [scan_tokens, Scanner.new, scanLoop_eq, scan_token, is_at_end, byteLen, utf8CharSize,
      advance, match_next, peek, peek_next, add_empty_token, add_token, slice, is_digit, is_alpha,
      scanNumber, numberLoop, scanIdentifier, identLoop, scanString, stringLoop, commentLoop,
      keyword_lookup, error, report, toks1m2m3, tokNum, tokOp]
  · decide

/-- C7 (amended).  Parsing the token sequence of `"1-2-3"` stops after the
first operator-operand pair: the result is `Binary(-, Literal 1,
Literal 2)` under the Program/Expression wrappers, with only three of the
five tokens consumed. -/
theorem c7_left_assoc_amended :
    scan_tokens ("1-2-3".toList) = some (toks1m2m3, []) ∧
    parse toks1m2m3 = some (tree1m2m3, 3) := by
  constructor
  · simp [scan_tokens, Scanner.new, scanLoop_eq, scan_token, is_at_end, byteLen, utf8CharSize,
      advance, match_next, peek, peek_next, add_empty_token, add_token, slice, is_digit, is_alpha,
      scanNumber, numberLoop, scanIdentifier, identLoop, scanString, stringLoop, commentLoop,
      keyword_lookup, error, report, toks1m2m3, tokNum, tokOp]
  · rfl

/-- C10.  Every node in any AST returned by `parse` or any of its
sub-parsers satisfies the fixed arity invariant (checked recursively by
`wellFormed`): Program, Expression, Grouping and Unary nodes have one
child, Binary nodes have three children the middle of which is an
Operator node, Literal and Operator nodes have no children. -/
theorem c10_parse_arity_invariant (toks : List Token) :
    (∀ node cur1, parse toks = some (node, cur1) → wellFormed node = true) ∧
    (∀ r cur node cur1, parse_exspression toks r cur = some (.ok node, cur1) →
      wellFormed node = true) ∧
    (∀ r cur node cur1, parse_grouping toks r cur = some (.ok node, cur1) →
      wellFormed node = true) ∧
    (∀ r cur node cur1, parse_binary toks r cur = some (.ok node, cur1) →
      wellFormed node = true) ∧
    (∀ r cur node cur1, parse_unary toks r cur = some (.ok node, cur1) →
      wellFormed node = true) ∧
    (∀ r cur node cur1, parse_operator toks r cur = some (.ok node, cur1) →
      wellFormed node = true) ∧
    (∀ r cur node cur1, parse_literal toks r cur = some (.ok node, cur1) →
      wellFormed node = true) := by
  refine ⟨?_,
    fun r cur => (parse_wf_aux r toks cur).1,
    fun r cur => (parse_wf_aux r toks cur).2.1,
    fun r cur => (parse_wf_aux r toks cur).2.2.1,
    fun r cur => (parse_wf_aux r toks cur).2.2.2,
    ?_, ?_⟩
  · intro node cur1 h
    rw [parse] at h
    split at h
    · cases h
    · cases h
    · rename_i n c1 hsub
      cases h
      rw [wellFormed_mk]
      simp [arity_ok, (parse_wf_aux 5 toks 0).1 _ _ hsub]
  · intro r cur node cur1 h
    obtain ⟨t, rfl⟩ := parse_operator_spec h
    simp [wellFormed_mk, arity_ok]
  · intro r cur node cur1 h
    obtain ⟨t, rfl⟩ := parse_literal_spec h
    simp [wellFormed_mk, arity_ok]

/-- C10 witness: the invariant at the concrete parse of `"1+2*3"`. -/
theorem c10_parse_arity_witness : wellFormed tree135 = true :=
  (c10_parse_arity_invariant toks135).1 tree135 3 (by rfl)

end Udyr
